import Mathlib

/-!
Verification of the document-utility toolkit (text statistics analyzer,
Markdown-to-PDF layout pass, image-to-PDF merger).

Strings are modelled as `List Char` (JavaScript strings are sequences of
code units; every input relevant here is plain text).  Each definition is a
direct transliteration of the corresponding JavaScript/TypeScript code.
-/

/-- ECMAScript `\s` (whitespace) character class, as used by `trim`,
`split(/\s+/)` and `split(/\n\s*\n/)` in `TextAnalyzer.tsx`. -/
def isJsWs (c : Char) : Bool :=
  c = ' ' || c = '\t' || c = '\n' || c = '\x0b' || c = '\x0c' || c = '\r' ||
  c = ' ' || c = ' ' || (0x2000 ≤ c.val && c.val ≤ 0x200a) ||
  c = ' ' || c = ' ' || c.val = 0x202f || c.val = 0x205f ||
  c.val = 0x3000 || c.val = 0xfeff

/-- Sentence terminators of the regex `[.!?]` in `TextAnalyzer.tsx`. -/
def isTerm (c : Char) : Bool :=
  c = '.' || c = '!' || c = '?'

/-- JavaScript `String.prototype.trim`: strip `\s` characters from both
ends. -/
def jsTrim (l : List Char) : List Char :=
  ((l.dropWhile isJsWs).reverse.dropWhile isJsWs).reverse

/-- Prepend a character onto the first fragment of a fragment list (used by
the splitting functions; a split of any string yields at least one
fragment). -/
def consHead (c : Char) : List (List Char) → List (List Char)
  | [] => [[c]]
  | f :: fs => (c :: f) :: fs

/-- JavaScript `split(sep)` for a single-character separator, keeping empty
fragments (`"".split` is `[""]`, `"a\n".split('\n')` is `["a", ""]`). -/
def splitChar (sep : Char) : List Char → List (List Char)
  | [] => [[]]
  | c :: rest =>
    if c = sep then [] :: splitChar sep rest else consHead c (splitChar sep rest)

/-- JavaScript `split(/\s+/)`: maximal whitespace runs are separators; a
leading run produces a leading empty fragment, a trailing run a trailing
one.  The `Bool` argument tracks being inside a separator run. -/
def splitWsAux : Bool → List Char → List (List Char)
  | _, [] => [[]]
  | inSep, c :: rest =>
    if isJsWs c then
      if inSep then splitWsAux true rest else [] :: splitWsAux true rest
    else consHead c (splitWsAux false rest)

/-- Model of `text.split(/\s+/)` from the word-count computation. -/
def splitWsRuns (l : List Char) : List (List Char) :=
  splitWsAux false l

/-- Index of the last newline in a list, if any. -/
def lastNlIdx : List Char → Option Nat
  | [] => none
  | c :: rest =>
    match lastNlIdx rest with
    | some p => some (p + 1)
    | none => if c = '\n' then some 0 else none

/-- Attempt to match the separator regex `\n\s*\n` at the head of the list
(greedy `\s*` with backtracking: the match ends at the last newline inside
the maximal whitespace run following the opening newline).  Returns the
remainder after the match. -/
def sepMatch : List Char → Option (List Char)
  | '\n' :: rest =>
    match lastNlIdx (rest.takeWhile isJsWs) with
    | some p => some (rest.drop (p + 1))
    | none => none
  | _ => none

/-- Fuel-indexed scanner for `split(/\n\s*\n/)`: at each position either the
separator matches (emit a fragment boundary and continue after the match)
or the head character joins the current fragment.  Called with fuel at
least the length of the list, which always suffices since a match consumes
at least two characters. -/
def splitBlankSepFuel : Nat → List Char → List (List Char)
  | 0, l => [l]
  | fuel + 1, l =>
    match l with
    | [] => [[]]
    | c :: rest =>
      match sepMatch (c :: rest) with
      | some after => [] :: splitBlankSepFuel fuel after
      | none => consHead c (splitBlankSepFuel fuel rest)

/-- Model of `text.split(/\n\s*\n/)` from the paragraph-count computation. -/
def splitBlankSep (l : List Char) : List (List Char) :=
  splitBlankSepFuel (l.length + 1) l

/-- Single left-to-right scan counting the matches of the global regex
`[.!?]+`: a match begins at every terminator not preceded by a terminator.
The `Bool` argument records whether the previous character was a
terminator. -/
def countTermRunsAux : Bool → List Char → Nat
  | _, [] => 0
  | prevTerm, c :: rest =>
    if isTerm c then (if prevTerm then 0 else 1) + countTermRunsAux true rest
    else countTermRunsAux false rest

/-- Model of `(line.match(/[.!?]+/g) || []).length`: the number of matches of the
global regex `[.!?]+` in a line. -/
def countTermRuns (l : List Char) : Nat :=
  countTermRunsAux false l

/-- The five statistics computed by the analyzer. -/
structure TextStatistics where
  characterCount : Nat
  wordCount : Nat
  sentenceCount : Nat
  paragraphCount : Nat
  readingTimeMinutes : Nat
deriving DecidableEq, Repr

/-- The `stats` computation of `TextAnalyzer.tsx` (lines 17-39), the
`computeStatistics` function of the specification.  Each field is a direct
transliteration:
* `characterCount = text.length`;
* `wordCount`: `text.trim().split(/\s+/).filter(w => w.length > 0)`,
  guarded to `0` when the trimmed text is empty;
* `paragraphCount`: `text.split(/\n\s*\n/).filter(p => p.trim().length > 0)`,
  same guard;
* `sentenceCount`: reduce over `text.split('\n').filter(nonblank)` adding
  the `[.!?]+` match count, or `1` when the line has no match;
* `readingTimeMinutes = Math.ceil(wordCount / 200)`. -/
def computeStatistics (text : List Char) : TextStatistics :=
  let characterCount := text.length
  let trimmed := jsTrim text
  let words := (splitWsRuns trimmed).filter (fun w => w.length > 0)
  let wordCount := if trimmed = [] then 0 else words.length
  let paragraphs := (splitBlankSep text).filter (fun p => jsTrim p ≠ [])
  let paragraphCount := if trimmed = [] then 0 else paragraphs.length
  let lines := (splitChar '\n' text).filter (fun l => jsTrim l ≠ [])
  let sentenceCount := lines.foldl
    (fun count line =>
      count + (if countTermRuns line = 0 then 1 else countTermRuns line)) 0
  let readingTimeMinutes := (Rat.ceil (mkRat wordCount 200)).toNat
  ⟨characterCount, wordCount, sentenceCount, paragraphCount, readingTimeMinutes⟩

/-! ## Markdown line-layout pass (`MarkdownToPdf.tsx`, `handleConvertToPdf`) -/

/-- Characters matched by `.` in a JavaScript regex (anything except a line
terminator). -/
def isDotChar (c : Char) : Bool :=
  !(c = '\n' || c = '\r' || c.val = 0x2028 || c.val = 0x2029)

/-- Font styles passed to `doc.setFont("helvetica", style)`. -/
inductive FontStyle where
  | normal
  | bold
  | italic
deriving DecidableEq, Repr

/-- A classified line: text after marker processing, font size and style. -/
structure Styled where
  text : List Char
  fontSize : Nat
  style : FontStyle
deriving DecidableEq, Repr

/-- JavaScript `startsWith`. -/
def jsStartsWith (p l : List Char) : Bool :=
  l.take p.length = p

/-- Lazy scan for the closing `**` of the regex `\*\*(.*?)\*\*`: returns the
captured content (shortest, over `.`-matchable characters) and the
remainder after the closing marker. -/
def findCloseStar2 : List Char → Option (List Char × List Char)
  | '*' :: '*' :: rest => some ([], rest)
  | c :: rest =>
    if isDotChar c then
      (findCloseStar2 rest).map (fun p => (c :: p.1, p.2))
    else none
  | [] => none

/-- Lazy scan to a single closing character (for `\*(.*?)\*`,
`` `(.*?)` `` and the `(.*?)\)` tail of the link regex). -/
def scanToClose (close : Char) : List Char → Option (List Char × List Char)
  | [] => none
  | c :: rest =>
    if c = close then some ([], rest)
    else if isDotChar c then
      (scanToClose close rest).map (fun p => (c :: p.1, p.2))
    else none

/-- Lazy scan for the `](` in the middle of `\[(.*?)\]\((.*?)\)`: returns
the captured label and the remainder after `](`. -/
def findLinkMid : List Char → Option (List Char × List Char)
  | ']' :: '(' :: rest => some ([], rest)
  | c :: rest =>
    if isDotChar c then
      (findLinkMid rest).map (fun p => (c :: p.1, p.2))
    else none
  | [] => none

/-- Model of `text.replace(/\*\*(.*?)\*\*/g, "$1")`: fuel-indexed left-to-right scan;
at a `**` opener the lazily-matched content replaces the whole match and
scanning resumes after it, otherwise the scan advances one character.  The
fuel only bounds the recursion; `length + 1` always suffices because every
step consumes at least one character. -/
def replaceBoldFuel : Nat → List Char → List Char
  | 0, l => l
  | fuel + 1, l =>
    match l with
    | '*' :: '*' :: rest =>
      match findCloseStar2 rest with
      | some (content, after) => content ++ replaceBoldFuel fuel after
      | none => '*' :: replaceBoldFuel fuel ('*' :: rest)
    | c :: rest => c :: replaceBoldFuel fuel rest
    | [] => []

def replaceBold (l : List Char) : List Char :=
  replaceBoldFuel (l.length + 1) l

/-- Model of `text.replace(/\*(.*?)\*/g, "$1")`, same scanning scheme. -/
def replaceItalicFuel : Nat → List Char → List Char
  | 0, l => l
  | fuel + 1, l =>
    match l with
    | '*' :: rest =>
      match scanToClose '*' rest with
      | some (content, after) => content ++ replaceItalicFuel fuel after
      | none => '*' :: replaceItalicFuel fuel rest
    | c :: rest => c :: replaceItalicFuel fuel rest
    | [] => []

def replaceItalic (l : List Char) : List Char :=
  replaceItalicFuel (l.length + 1) l

/-- Model of ``text.replace(/`(.*?)`/g, "$1")``, same scanning scheme. -/
def replaceCodeFuel : Nat → List Char → List Char
  | 0, l => l
  | fuel + 1, l =>
    match l with
    | '`' :: rest =>
      match scanToClose '`' rest with
      | some (content, after) => content ++ replaceCodeFuel fuel after
      | none => '`' :: replaceCodeFuel fuel rest
    | c :: rest => c :: replaceCodeFuel fuel rest
    | [] => []

def replaceCode (l : List Char) : List Char :=
  replaceCodeFuel (l.length + 1) l

/-- Model of `text.replace(/\[(.*?)\]\(.*?\)/g, "$1")`: at a `[` the scan looks for
the lazily-nearest `](` and then a closing `)`; on success the label
replaces the whole match, otherwise the scan advances one character (a
failed partial match cannot succeed by lazy backtracking either, because
any longer label or URL would have to cross the same line terminator that
made the short one fail). -/
def replaceLinkFuel : Nat → List Char → List Char
  | 0, l => l
  | fuel + 1, l =>
    match l with
    | '[' :: rest =>
      match findLinkMid rest with
      | some (label, rest2) =>
        match scanToClose ')' rest2 with
        | some (_, after) => label ++ replaceLinkFuel fuel after
        | none => '[' :: replaceLinkFuel fuel rest
      | none => '[' :: replaceLinkFuel fuel rest
    | c :: rest => c :: replaceLinkFuel fuel rest
    | [] => []

def replaceLink (l : List Char) : List Char :=
  replaceLinkFuel (l.length + 1) l

/-- The four inline-marker replacements of `MarkdownToPdf.tsx` lines 92-95,
in source order: bold, italic, inline code, links. -/
def stripInline (t : List Char) : List Char :=
  replaceLink (replaceCode (replaceItalic (replaceBold t)))

/-- JavaScript digit class `\d`. -/
def isJsDigit (c : Char) : Bool :=
  '0' ≤ c && c ≤ '9'

/-- The test `/^\d+\.\s/.test(line)`: one or more digits, a dot, then a
whitespace character. -/
def isNumberedLine (l : List Char) : Bool :=
  let ds := l.takeWhile isJsDigit
  decide (ds ≠ []) &&
    match l.drop ds.length with
    | '.' :: c :: _ => isJsWs c
    | _ => false

/-- The bullet glyph prepended to list items (the source file contains the
UTF-8 bullet point followed by a space). -/
def bulletGlyph : List Char := [Char.ofNat 0x2022, ' ']

/-- Line classification of `MarkdownToPdf.tsx` lines 64-89, in source
priority order: `# `, `## `, `### ` headings; `- `/`* ` bullets; numbered
items; `> ` blockquotes; otherwise a plain line at size 12, normal. -/
def lineStyle (line : List Char) : Styled :=
  if jsStartsWith "# ".data line then ⟨line.drop 2, 24, .bold⟩
  else if jsStartsWith "## ".data line then ⟨line.drop 3, 20, .bold⟩
  else if jsStartsWith "### ".data line then ⟨line.drop 4, 16, .bold⟩
  else if jsStartsWith "- ".data line || jsStartsWith "* ".data line then
    ⟨bulletGlyph ++ line.drop 2, 12, .normal⟩
  else if isNumberedLine line then ⟨line, 12, .normal⟩
  else if jsStartsWith "> ".data line then
    ⟨' ' :: ' ' :: line.drop 2, 12, .italic⟩
  else ⟨line, 12, .normal⟩

/-- The sequence of text blocks emitted by the conversion loop of
`MarkdownToPdf.tsx` lines 62-116: split the input on line breaks, classify
each line, strip inline markers, and emit a block exactly when the
resulting text has non-blank content (`if (text.trim())`). -/
def layoutMarkdown (md : List Char) : List Styled :=
  (splitChar '\n' md).filterMap (fun line =>
    let st := lineStyle line
    let t := stripInline st.text
    if jsTrim t ≠ [] then some ⟨t, st.fontSize, st.style⟩ else none)

/-! ## Image-to-PDF tool (`ImageToPdf.tsx`) -/

/-- A placement rectangle handed to `doc.addImage(data, "JPEG", x, y, w, h)`. -/
structure Rect where
  x : ℚ
  y : ℚ
  w : ℚ
  h : ℚ
deriving DecidableEq, Repr

/-- The page-fit computation of `handleConvertToPdf` in `ImageToPdf.tsx`
(lines 129-150), the `fitImageToPage` function of the specification: shrink
to the content area (width first, then height, each pass scaling both
dimensions), never grow, then center on the page. -/
def fitImageToPage (imgWidth imgHeight pageWidth pageHeight margin : ℚ) : Rect :=
  let maxWidth := pageWidth - margin * 2
  let maxHeight := pageHeight - margin * 2
  let p1 := if imgWidth > maxWidth then (maxWidth, imgHeight * (maxWidth / imgWidth))
            else (imgWidth, imgHeight)
  let p2 := if p1.2 > maxHeight then (p1.1 * (maxHeight / p1.2), maxHeight)
            else p1
  ⟨(pageWidth - p2.1) / 2, (pageHeight - p2.2) / 2, p2.1, p2.2⟩

/-- The jsPDF document operations issued by the image-conversion loop. -/
inductive PdfOp where
  | addPage
  | addImage (r : Rect)
deriving DecidableEq, Repr

def isAddPage : PdfOp → Bool
  | .addPage => true
  | .addImage _ => false

/-- The conversion loop of `ImageToPdf.tsx` lines 119-164 on a list of
decoded image dimensions: `if (i > 0) doc.addPage()` then one `addImage`
with the fitted placement.  The `Bool` argument is `true` exactly for the
first iteration (`i = 0`). -/
def imageOps (pageWidth pageHeight margin : ℚ) : Bool → List (ℚ × ℚ) → List PdfOp
  | _, [] => []
  | first, d :: ds =>
    (if first then [] else [PdfOp.addPage]) ++
      PdfOp.addImage (fitImageToPage d.1 d.2 pageWidth pageHeight margin) ::
        imageOps pageWidth pageHeight margin false ds

/-- The page index on which each `addImage` lands: pages are indexed from 0
and `addPage` moves to the next page. -/
def imagePages : Nat → List PdfOp → List Nat
  | _, [] => []
  | p, PdfOp.addPage :: rest => imagePages (p + 1) rest
  | p, PdfOp.addImage _ :: rest => p :: imagePages p rest

/-- The same loop with each `await loadImage(...)` modelled as an
`Except`-valued decode result; a decode failure propagates like the thrown
exception and discards the document. -/
def convertBody (pageWidth pageHeight margin : ℚ) :
    Bool → List (Except String (ℚ × ℚ)) → Except String (List PdfOp)
  | _, [] => .ok []
  | _, .error e :: _ => .error e
  | first, .ok d :: ds =>
    (convertBody pageWidth pageHeight margin false ds).map
      (fun rest =>
        (if first then [] else [PdfOp.addPage]) ++
          PdfOp.addImage (fitImageToPage d.1 d.2 pageWidth pageHeight margin) :: rest)

/-- Observable outcome of `handleConvertToPdf` in `ImageToPdf.tsx`:
whether `doc.save("images.pdf")` ran, which toast was shown, and the
operations issued on the saved document. -/
structure ConvOutcome where
  saved : Bool
  emptyInputError : Bool
  failureError : Bool
  successToast : Bool
  ops : List PdfOp
deriving DecidableEq, Repr

/-- Function `handleConvertToPdf` of `ImageToPdf.tsx` (lines 105-174): empty-list
guard, then the conversion loop inside `try`, saving only after the loop
completes; any thrown error is caught and reported
(`toast.error("Failed to generate PDF")`), so the routine always returns
normally. -/
def handleConvertToPdf (pageWidth pageHeight margin : ℚ)
    (decodes : List (Except String (ℚ × ℚ))) : ConvOutcome :=
  if decodes.length = 0 then
    { saved := false, emptyInputError := true, failureError := false
      successToast := false, ops := [] }
  else
    match convertBody pageWidth pageHeight margin true decodes with
    | .ok ops =>
      { saved := true, emptyInputError := false, failureError := false
        successToast := true, ops := ops }
    | .error _ =>
      { saved := false, emptyInputError := false, failureError := true
        successToast := false, ops := [] }

/-- An entry of the image list (`ImageItem` in `ImageToPdf.tsx`): identity
token, backing file and preview object-URL. -/
structure ImageItem where
  id : String
  file : String
  preview : String
deriving DecidableEq, Repr

/-- Function `removeImage` of `ImageToPdf.tsx` (lines 79-88): revoke the preview
URL of the first item whose id matches, then filter out every matching
item.  The second component collects the `URL.revokeObjectURL` calls. -/
def removeImage (id : String) (prev : List ImageItem) :
    List ImageItem × List String :=
  let revoked :=
    match prev.find? (fun i => i.id = id) with
    | some img => [img.preview]
    | none => []
  (prev.filter (fun i => i.id ≠ id), revoked)

/-- JavaScript `findIndex`: the index of the first match, `-1` if none. -/
def jsFindIndex (p : α → Bool) (l : List α) : Int :=
  match l.findIdx? p with
  | some i => (i : Int)
  | none => -1

/-- JavaScript `Array.prototype.splice(start, deleteCount, ...items)`:
negative `start` counts from the end and clamps at 0, `start` past the end
clamps to the length; returns the removed elements and the new array. -/
def jsSplice (l : List α) (start : Int) (deleteCount : Nat) (items : List α) :
    List α × List α :=
  let n := l.length
  let actualStart := if start < 0 then ((n : Int) + start).toNat else min start.toNat n
  let actualDelete := min deleteCount (n - actualStart)
  ((l.drop actualStart).take actualDelete,
   l.take actualStart ++ items ++ l.drop (actualStart + actualDelete))

/-- Function `handleDrop` of `ImageToPdf.tsx` (lines 57-73): no-op when nothing is
dragged or the drag lands on itself; otherwise splice the dragged item out
and splice it back in at the target's index.  The result entries are
`Option`-valued because destructuring the removal result of an empty splice
yields `undefined`, which the insertion splice stores as an element. -/
def handleDrop (draggedId : Option String) (targetId : String)
    (prev : List ImageItem) : List (Option ImageItem) :=
  match draggedId with
  | none => prev.map some
  | some d =>
    if d = targetId then prev.map some
    else
      let draggedIndex := jsFindIndex (fun img => img.id = d) prev
      let targetIndex := jsFindIndex (fun img => img.id = targetId) prev
      let spliced := jsSplice prev draggedIndex 1 []
      let draggedItem : Option ImageItem := spliced.1.head?
      (jsSplice (spliced.2.map some) targetIndex 0 [draggedItem]).2

/-! ## Helper lemmas -/

theorem consHead_ne_nil (c : Char) (L : List (List Char)) : consHead c L ≠ [] := by
  cases L <;> simp [consHead]

theorem splitChar_ne_nil (sep : Char) (l : List Char) : splitChar sep l ≠ [] := by
  cases l with
  | nil => simp [splitChar]
  | cons a rest =>
    simp only [splitChar]
    split
    · simp
    · exact consHead_ne_nil _ _

/-- Every character of a fragment of `splitChar` is a character of the
split string. -/
theorem mem_of_mem_splitChar {sep : Char} :
    ∀ {l f : List Char}, f ∈ splitChar sep l → ∀ {c : Char}, c ∈ f → c ∈ l := by
  intro l
  induction l with
  | nil =>
    intro f hf c hc
    simp [splitChar] at hf
    subst hf
    simp at hc
  | cons a rest ih =>
    intro f hf c hc
    by_cases h : a = sep
    · rw [splitChar, if_pos h] at hf
      rcases List.mem_cons.mp hf with rfl | hf'
      · simp at hc
      · exact List.mem_cons_of_mem _ (ih hf' hc)
    · rw [splitChar, if_neg h] at hf
      rcases hg : splitChar sep rest with _ | ⟨g, gs⟩
      · exact absurd hg (splitChar_ne_nil sep rest)
      · rw [hg] at hf
        simp only [consHead] at hf
        rcases List.mem_cons.mp hf with rfl | hf'
        · rcases List.mem_cons.mp hc with rfl | hc'
          · exact List.mem_cons_self _ _
          · exact List.mem_cons_of_mem _ (ih (hg ▸ List.mem_cons_self g gs) hc')
        · exact List.mem_cons_of_mem _ (ih (hg ▸ List.mem_cons_of_mem g hf') hc)

theorem jsTrim_eq_nil {l : List Char} (h : ∀ c ∈ l, isJsWs c = true) :
    jsTrim l = [] := by
  unfold jsTrim
  rw [List.dropWhile_eq_nil_iff.mpr h]
  simp

theorem foldl_add_map_sum (f : List Char → Nat) :
    ∀ (ls : List (List Char)) (a : Nat),
      ls.foldl (fun acc x => acc + f x) a = a + (ls.map f).sum := by
  intro ls
  induction ls with
  | nil => simp
  | cons x xs ih =>
    intro a
    simp [ih, add_assoc]

/-- The Batteries `Rat.ceil` agrees with Mathlib's `⌈·⌉`. -/
theorem ratCeil_eq_intCeil (q : ℚ) : Rat.ceil q = ⌈q⌉ := by
  unfold Rat.ceil
  split
  · next h =>
    have hq : ((q.num : ℚ)) = q := by
      conv_rhs => rw [← q.num_div_den]
      rw [h, Nat.cast_one, div_one]
    calc q.num = ⌈(q.num : ℚ)⌉ := (Int.ceil_intCast _).symm
      _ = ⌈q⌉ := by rw [hq]
  · next h =>
    have hfl : ⌊q⌋ = q.num / q.den := Rat.floor_def
    rw [← hfl]
    symm
    rw [Int.ceil_eq_iff]
    constructor
    · push_cast
      simp only [add_sub_cancel_right]
      rcases lt_or_eq_of_le (Int.floor_le q) with hlt | heq
      · exact hlt
      · exact absurd (by rw [← heq, Rat.den_intCast]) h
    · push_cast
      exact (Int.lt_floor_add_one q).le

theorem ceil_div200_toNat (wc : ℕ) :
    (Rat.ceil (mkRat wc 200)).toNat = ⌈(wc : ℚ) / 200⌉₊ := by
  rw [ratCeil_eq_intCeil, Int.ceil_toNat]
  norm_num [Rat.mkRat_eq_div]

theorem ceil_div200_eq_zero_iff (wc : ℕ) :
    (Rat.ceil (mkRat wc 200)).toNat = 0 ↔ wc = 0 := by
  rw [ceil_div200_toNat, Nat.ceil_eq_zero]
  constructor
  · intro h
    by_contra hne
    have hpos : (0 : ℚ) < (wc : ℚ) := by exact_mod_cast Nat.pos_of_ne_zero hne
    have : (0 : ℚ) < (wc : ℚ) / 200 := div_pos hpos (by norm_num)
    linarith
  · intro h
    subst h
    norm_num

/-- The specification's reading of the per-line sentence count: a position
starts a maximal run of terminators exactly when its character is a
terminator and its predecessor (with a dummy non-terminator before the
first position) is not. -/
def maximalTermRuns (l : List Char) : Nat :=
  ((' ' :: l).zip l).countP (fun p => isTerm p.2 && !isTerm p.1)

theorem countTermRunsAux_eq (l : List Char) :
    ∀ prev : Char, countTermRunsAux (isTerm prev) l
      = ((prev :: l).zip l).countP (fun p => isTerm p.2 && !isTerm p.1) := by
  induction l with
  | nil =>
    intro prev
    simp [countTermRunsAux]
  | cons c rest ih =>
    intro prev
    show countTermRunsAux (isTerm prev) (c :: rest) = _
    rw [List.zip_cons_cons, List.countP_cons]
    by_cases hc : isTerm c = true
    · rw [countTermRunsAux, if_pos hc]
      have : countTermRunsAux true rest = countTermRunsAux (isTerm c) rest := by rw [hc]
      rw [this, ih c]
      by_cases hp : isTerm prev = true <;> simp [hc, hp, Nat.add_comm]
    · rw [countTermRunsAux, if_neg hc]
      have : countTermRunsAux false rest = countTermRunsAux (isTerm c) rest := by
        rw [Bool.eq_false_iff.mpr hc]
      rw [this, ih c]
      simp [hc]

theorem countTermRuns_eq_maximalTermRuns (l : List Char) :
    countTermRuns l = maximalTermRuns l := by
  have h := countTermRunsAux_eq l ' '
  simpa [countTermRuns, maximalTermRuns] using h

theorem imagePages_imageOps_false (pw ph m : ℚ) (ds : List (ℚ × ℚ)) :
    ∀ p : Nat, imagePages p (imageOps pw ph m false ds)
      = (List.range ds.length).map (fun k => p + 1 + k) := by
  induction ds with
  | nil =>
    intro p
    simp [imageOps, imagePages]
  | cons d rest ih =>
    intro p
    simp only [imageOps, Bool.false_eq_true, if_false, List.cons_append,
      List.nil_append, imagePages, List.length_cons, List.range_succ_eq_map,
      List.map_cons, List.map_map, ih]
    have h1 : p + 1 + 0 = p + 1 := by omega
    have h2 : List.map ((fun k => p + 1 + k) ∘ Nat.succ) (List.range rest.length)
        = List.map (fun k => p + 1 + 1 + k) (List.range rest.length) := by
      apply List.map_congr_left
      intro k _
      simp [Function.comp]
      omega
    rw [h1, h2]

theorem countAddPage_imageOps_false (pw ph m : ℚ) (ds : List (ℚ × ℚ)) :
    (imageOps pw ph m false ds).countP isAddPage = ds.length := by
  induction ds with
  | nil => simp [imageOps]
  | cons d rest ih =>
    simp [imageOps, List.countP_cons, isAddPage, ih]

/-- On all-successful decodes, the `Except`-valued loop produces exactly
the operations of the plain loop. -/
theorem convertBody_map_ok (pw ph m : ℚ) (ds : List (ℚ × ℚ)) :
    ∀ first : Bool, convertBody pw ph m first (ds.map Except.ok)
      = Except.ok (imageOps pw ph m first ds) := by
  induction ds with
  | nil =>
    intro first
    simp [convertBody, imageOps]
  | cons d rest ih =>
    intro first
    simp [convertBody, imageOps, ih false, Except.map]

theorem convertBody_error_of_mem (pw ph m : ℚ) :
    ∀ (decodes : List (Except String (ℚ × ℚ))) (first : Bool) (e : String),
      Except.error e ∈ decodes →
      ∃ e2, convertBody pw ph m first decodes = .error e2 := by
  intro decodes
  induction decodes with
  | nil =>
    intro first e he
    simp at he
  | cons d ds ih =>
    intro first e he
    cases d with
    | error e3 => exact ⟨e3, rfl⟩
    | ok dim =>
      have he' : Except.error e ∈ ds := by
        rcases List.mem_cons.mp he with heq | h'
        · exact absurd heq (by simp)
        · exact h'
      obtain ⟨e2, hb⟩ := ih false e he'
      refine ⟨e2, ?_⟩
      show (convertBody pw ph m false ds).map _ = _
      rw [hb]
      rfl

theorem find?_append_of_none {α : Type} (p : α → Bool) :
    ∀ (l₁ l₂ : List α), (∀ x ∈ l₁, ¬ p x = true) →
      (l₁ ++ l₂).find? p = l₂.find? p := by
  intro l₁
  induction l₁ with
  | nil =>
    intro l₂ _
    rfl
  | cons a l ih =>
    intro l₂ h
    have ha : p a = false :=
      Bool.eq_false_iff.mpr (h a (List.mem_cons_self a l))
    rw [List.cons_append, List.find?_cons, ha]
    exact ih l₂ (fun x hx => h x (List.mem_cons_of_mem a hx))

/-- Inserting one element with `splice(t, 0, x)` yields a permutation of
the element consed onto the list, for every (clamped) position. -/
theorem splice_insert_perm {α : Type} (M : List α) (t : Int) (x : α) :
    List.Perm (jsSplice M t 0 [x]).2 (x :: M) := by
  simp only [jsSplice, Nat.zero_min, Nat.min_zero, Nat.add_zero,
    List.append_assoc, List.singleton_append]
  conv_rhs => rw [← List.take_append_drop
    (if t < 0 then ((M.length : Int) + t).toNat else min t.toNat M.length) M]
  exact List.perm_middle

/-- Running `splice(findIndex(...), 1)` on a non-empty list always removes exactly
one element (a negative `findIndex` result counts from the end), and
consing it back onto the remainder is a permutation of the original. -/
theorem jsFindIndex_splice_one {α : Type} (p : α → Bool) (l : List α)
    (h : l ≠ []) :
    ∃ (x : α) (rest : List α),
      (jsSplice l (jsFindIndex p l) 1 []).1 = [x] ∧
      (jsSplice l (jsFindIndex p l) 1 []).2 = rest ∧
      List.Perm (x :: rest) l := by
  have hn : 0 < l.length := List.length_pos.mpr h
  have key : ∀ j : Nat, j < l.length →
      (if jsFindIndex p l < 0 then ((l.length : Int) + jsFindIndex p l).toNat
        else min (jsFindIndex p l).toNat l.length) = j →
      ∃ (x : α) (rest : List α),
        (jsSplice l (jsFindIndex p l) 1 []).1 = [x] ∧
        (jsSplice l (jsFindIndex p l) 1 []).2 = rest ∧
        List.Perm (x :: rest) l := by
    intro j hj hstart
    refine ⟨l.get ⟨j, hj⟩, l.take j ++ l.drop (j + 1), ?_, ?_, ?_⟩
    · show (l.drop _).take _ = _
      rw [hstart]
      have hd : min 1 (l.length - j) = 1 := by omega
      rw [hd, List.drop_eq_get_cons hj]
      rfl
    · show l.take _ ++ [] ++ l.drop _ = _
      rw [hstart]
      have hd : min 1 (l.length - j) = 1 := by omega
      rw [hd, List.append_nil]
    · conv_rhs => rw [← List.take_append_drop j l, List.drop_eq_get_cons hj]
      exact List.perm_middle.symm
  cases hidx : l.findIdx? p with
  | none =>
    have hs : jsFindIndex p l = -1 := by simp [jsFindIndex, hidx]
    apply key (l.length - 1) (by omega)
    rw [hs]
    simp only [if_pos (by norm_num : (-1 : Int) < 0)]
    omega
  | some i =>
    have hi : i < l.length := by
      simpa using (List.findIdx?_eq_some_iff_findIdx_eq.mp hidx).1
    have hs : jsFindIndex p l = (i : Int) := by simp [jsFindIndex, hidx]
    apply key i hi
    rw [hs]
    simp only [if_neg (by omega : ¬ ((i : Int) < 0))]
    omega

/-! ## Claim theorems -/

/-- C6: on a non-empty image list the first image lands on page 0, every
later image gets exactly one preceding `addPage` (unconditionally of its
size), so image `i` lands on page `i`; the loop issues `length - 1`
`addPage` operations in total. -/
theorem each_image_on_own_page (pw ph m : ℚ) (ds : List (ℚ × ℚ)) (h : ds ≠ []) :
    imagePages 0 (imageOps pw ph m true ds) = List.range ds.length ∧
    (imageOps pw ph m true ds).countP isAddPage = ds.length - 1 := by
  cases ds with
  | nil => exact absurd rfl h
  | cons d rest =>
    constructor
    · simp only [imageOps, if_true, List.nil_append, imagePages,
        imagePages_imageOps_false, List.length_cons, List.range_succ_eq_map]
      congr 1
      apply List.map_congr_left
      intro k _
      omega
    · simp [imageOps, List.countP_cons, isAddPage, countAddPage_imageOps_false]

/-- C6 witness: three images of assorted sizes land on pages 0, 1, 2 with
two `addPage` requests. -/
theorem each_image_on_own_page_witness :
    ([(50, 50), (20, 20), (300, 40)] : List (ℚ × ℚ)) ≠ [] ∧
    (imagePages 0 (imageOps 210 297 10 true [(50, 50), (20, 20), (300, 40)])
        = List.range 3 ∧
      (imageOps 210 297 10 true [(50, 50), (20, 20), (300, 40)]).countP isAddPage
        = 2) :=
  ⟨List.cons_ne_nil _ _,
    each_image_on_own_page 210 297 10 [(50, 50), (20, 20), (300, 40)]
      (List.cons_ne_nil _ _)⟩

/-- C8: if any decode in the list fails, the conversion is aborted — the
document is never saved (no operations are issued on a saved document),
the failure is reported via the error toast, and the routine returns
normally (the thrown error is absorbed by the `catch`). -/
theorem decode_failure_aborts (pw ph m : ℚ)
    (decodes : List (Except String (ℚ × ℚ))) (e : String)
    (h : Except.error e ∈ decodes) :
    (handleConvertToPdf pw ph m decodes).saved = false ∧
    (handleConvertToPdf pw ph m decodes).failureError = true ∧
    (handleConvertToPdf pw ph m decodes).ops = [] := by
  have hne : decodes.length ≠ 0 := by
    cases decodes with
    | nil => simp at h
    | cons d ds => simp
  obtain ⟨e2, hb⟩ := convertBody_error_of_mem pw ph m decodes true e h
  simp [handleConvertToPdf, hne, hb]

/-- C8 witness: a failing decode in the middle of the list aborts the
conversion with no save and an error report. -/
theorem decode_failure_aborts_witness :
    Except.error "decode" ∈
      ([.ok (50, 50), .error "decode", .ok (20, 20)] :
        List (Except String (ℚ × ℚ))) ∧
    ((handleConvertToPdf 210 297 10
        [.ok (50, 50), .error "decode", .ok (20, 20)]).saved = false ∧
      (handleConvertToPdf 210 297 10
        [.ok (50, 50), .error "decode", .ok (20, 20)]).failureError = true ∧
      (handleConvertToPdf 210 297 10
        [.ok (50, 50), .error "decode", .ok (20, 20)]).ops = []) :=
  ⟨by simp,
    decode_failure_aborts 210 297 10 [.ok (50, 50), .error "decode", .ok (20, 20)]
      "decode" (by simp)⟩

/-- C1 (corrected), counterexample: the one-space input consists only of
whitespace characters, yet its `characterCount` is 1, not 0 — the claim
that all five counts are 0 on whitespace-only input fails. -/
theorem whitespace_only_characterCount_ne_zero :
    " ".data.all isJsWs = true ∧
    ¬ (computeStatistics " ".data).characterCount = 0 := by
  constructor
  · decide
  · decide

/-- C1 (amended): on an input that is empty or consists only of whitespace
characters, the four derived counts (`wordCount`, `sentenceCount`,
`paragraphCount`, `readingTimeMinutes`) are 0, while `characterCount`
equals the input length (hence 0 exactly for the empty input). -/
theorem whitespace_only_statistics (text : List Char)
    (h : text.all isJsWs = true) :
    (computeStatistics text).wordCount = 0 ∧
    (computeStatistics text).sentenceCount = 0 ∧
    (computeStatistics text).paragraphCount = 0 ∧
    (computeStatistics text).readingTimeMinutes = 0 ∧
    (computeStatistics text).characterCount = text.length := by
  have hws : ∀ c ∈ text, isJsWs c = true := by
    simpa [List.all_eq_true] using h
  have htrim : jsTrim text = [] := jsTrim_eq_nil hws
  have hlines : (splitChar '\n' text).filter (fun l => !decide (jsTrim l = [])) = [] := by
    apply List.filter_eq_nil_iff.mpr
    intro f hf
    have : jsTrim f = [] :=
      jsTrim_eq_nil (fun c hc => hws c (mem_of_mem_splitChar hf hc))
    simp [this]
  refine ⟨?_, ?_, ?_, ?_, ?_⟩
  · simp [computeStatistics, htrim]
  · simp [computeStatistics, hlines]
  · simp [computeStatistics, htrim]
  · simp [computeStatistics, htrim]
    decide
  · simp [computeStatistics]

/-- C1 witness: the one-space input is whitespace-only, and the amended
conclusions hold there. -/
theorem whitespace_only_statistics_witness :
    " ".data.all isJsWs = true ∧
    ((computeStatistics " ".data).wordCount = 0 ∧
     (computeStatistics " ".data).sentenceCount = 0 ∧
     (computeStatistics " ".data).paragraphCount = 0 ∧
     (computeStatistics " ".data).readingTimeMinutes = 0 ∧
     (computeStatistics " ".data).characterCount = " ".data.length) :=
  ⟨by decide, whitespace_only_statistics " ".data (by decide)⟩

/-- C2: the sentence count follows variant (b) — it is the sum, over the
lines (split on line breaks) whose trimmed content is non-empty, of the
number of maximal runs of `.`/`!`/`?` in the line, counting 1 for a line
with no terminator; in particular `"a b c"` has sentence count 1. -/
theorem sentence_count_variant_b :
    (∀ text : List Char,
      (computeStatistics text).sentenceCount =
        (((splitChar '\n' text).filter (fun l => jsTrim l ≠ [])).map
          (fun l => if maximalTermRuns l = 0 then 1 else maximalTermRuns l)).sum) ∧
    (computeStatistics "a b c".data).sentenceCount = 1 := by
  constructor
  · intro text
    show ((splitChar '\n' text).filter (fun l => jsTrim l ≠ [])).foldl
        (fun count line =>
          count + (if countTermRuns line = 0 then 1 else countTermRuns line)) 0 = _
    rw [foldl_add_map_sum (fun line =>
      if countTermRuns line = 0 then 1 else countTermRuns line)]
    rw [Nat.zero_add]
    congr 1
    apply List.map_congr_left
    intro l _
    rw [countTermRuns_eq_maximalTermRuns]
  · decide

/-- C3: an image whose natural dimensions both fit within the page content
area (page dimension minus twice the margin) is placed at its natural size
(no upscaling), centered at `x = (pageWidth - w) / 2`,
`y = (pageHeight - h) / 2`. -/
theorem fit_small_image_centered (imgWidth imgHeight pageWidth pageHeight margin : ℚ)
    (hw : imgWidth ≤ pageWidth - margin * 2)
    (hh : imgHeight ≤ pageHeight - margin * 2) :
    fitImageToPage imgWidth imgHeight pageWidth pageHeight margin =
      ⟨(pageWidth - imgWidth) / 2, (pageHeight - imgHeight) / 2,
        imgWidth, imgHeight⟩ := by
  simp [fitImageToPage, not_lt.mpr hw, not_lt.mpr hh]

/-- C3 witness: `fitImageToPage(50, 50, 210, 297, 10)` keeps the 50×50 size
and centers it on the page (x = 80, y = 123.5). -/
theorem fit_small_image_centered_witness :
    (50 : ℚ) ≤ 210 - 10 * 2 ∧ (50 : ℚ) ≤ 297 - 10 * 2 ∧
    fitImageToPage 50 50 210 297 10 =
      ⟨(210 - 50) / 2, (297 - 50) / 2, 50, 50⟩ :=
  ⟨by norm_num, by norm_num,
    fit_small_image_centered 50 50 210 297 10 (by norm_num) (by norm_num)⟩

/-- Characters that act as inline-formatting markers in the four stripped
notations (`**`, `*`, `` ` ``, `[label](url)`). -/
def isMarkerChar (c : Char) : Bool :=
  c = '*' || c = '`' || c = '[' || c = ']' || c = '(' || c = ')'

/-- C4: inline markers are stripped in the fixed source order — bold, then
italic, then inline code, then links, each a single non-recursive pass —
and `"**bold** and *italic*"` lays out as the single block
`"bold and italic"` with no residual marker characters. -/
theorem inline_markers_stripped :
    (∀ t : List Char,
      stripInline t = replaceLink (replaceCode (replaceItalic (replaceBold t)))) ∧
    layoutMarkdown "**bold** and *italic*".data
      = [⟨"bold and italic".data, 12, .normal⟩] ∧
    (layoutMarkdown "**bold** and *italic*".data).all
      (fun b => b.text.all (fun c => !isMarkerChar c)) = true := by
  refine ⟨fun t => rfl, by decide, by decide⟩

/-- C5: a line starting with `"# "` is classified as a level-1 heading —
prefix stripped, font size 24, bold — and `"# Title"` lays out as exactly
one block, size 24, bold, text `"Title"`. -/
theorem heading_level_one :
    (∀ line : List Char, jsStartsWith "# ".data line = true →
      lineStyle line = ⟨line.drop 2, 24, .bold⟩) ∧
    layoutMarkdown "# Title".data = [⟨"Title".data, 24, .bold⟩] := by
  constructor
  · intro line h
    simp [lineStyle, h]
  · decide

/-- C5 witness: `"# Hello"` starts with `"# "` and is classified at size
24, bold, with the two-character prefix stripped. -/
theorem heading_level_one_witness :
    jsStartsWith "# ".data "# Hello".data = true ∧
    lineStyle "# Hello".data = ⟨"# Hello".data.drop 2, 24, .bold⟩ :=
  ⟨by decide, heading_level_one.1 "# Hello".data (by decide)⟩

/-- C7: removing an item (with unique identity tokens, as the ids
generated on upload are) by its token deletes exactly that item — the rest
keep their relative order and the list shrinks by one — and revokes the
removed item's preview URL exactly once. -/
theorem remove_image_correct (l : List ImageItem) (item : ImageItem)
    (hnd : (l.map ImageItem.id).Nodup) (hmem : item ∈ l) :
    ∃ l₁ l₂, l = l₁ ++ item :: l₂ ∧
      (removeImage item.id l).1 = l₁ ++ l₂ ∧
      (removeImage item.id l).2 = [item.preview] ∧
      (removeImage item.id l).1.length + 1 = l.length := by
  obtain ⟨l₁, l₂, rfl⟩ := List.mem_iff_append.mp hmem
  rw [List.map_append, List.map_cons] at hnd
  have hdisj := (List.nodup_append.mp hnd).2.2
  have h1 : ∀ x ∈ l₁, x.id ≠ item.id := by
    intro x hx heq
    exact hdisj (List.mem_map_of_mem _ hx) (heq ▸ List.mem_cons_self _ _)
  have h2 : ∀ x ∈ l₂, x.id ≠ item.id := by
    have hcons := (List.nodup_append.mp hnd).2.1
    have hnotin := (List.nodup_cons.mp hcons).1
    intro x hx heq
    exact hnotin (heq ▸ List.mem_map_of_mem _ hx)
  have hfil : (removeImage item.id (l₁ ++ item :: l₂)).1 = l₁ ++ l₂ := by
    show (l₁ ++ item :: l₂).filter (fun i => i.id ≠ item.id) = l₁ ++ l₂
    rw [List.filter_append, List.filter_cons]
    have hl1 : l₁.filter (fun i => !decide (i.id = item.id)) = l₁ :=
      List.filter_eq_self.mpr (fun x hx => by simpa using h1 x hx)
    have hl2 : l₂.filter (fun i => !decide (i.id = item.id)) = l₂ :=
      List.filter_eq_self.mpr (fun x hx => by simpa using h2 x hx)
    simp [hl1, hl2]
  have hfind : (removeImage item.id (l₁ ++ item :: l₂)).2 = [item.preview] := by
    show (match (l₁ ++ item :: l₂).find? (fun i => i.id = item.id) with
      | some img => [img.preview]
      | none => []) = [item.preview]
    rw [find?_append_of_none _ l₁ _ (fun x hx => by simpa using h1 x hx)]
    rw [List.find?_cons]
    simp
  refine ⟨l₁, l₂, rfl, hfil, hfind, ?_⟩
  rw [hfil]
  simp
  omega

/-- C7 witness: removing the middle item of a three-item list by its token
keeps the outer two in order and revokes its preview once. -/
theorem remove_image_correct_witness :
    (([⟨"a", "f1", "p1"⟩, ⟨"b", "f2", "p2"⟩, ⟨"c", "f3", "p3"⟩] :
        List ImageItem).map ImageItem.id).Nodup ∧
    (⟨"b", "f2", "p2"⟩ : ImageItem) ∈
      ([⟨"a", "f1", "p1"⟩, ⟨"b", "f2", "p2"⟩, ⟨"c", "f3", "p3"⟩] :
        List ImageItem) ∧
    ∃ l₁ l₂,
      ([⟨"a", "f1", "p1"⟩, ⟨"b", "f2", "p2"⟩, ⟨"c", "f3", "p3"⟩] :
          List ImageItem) = l₁ ++ ⟨"b", "f2", "p2"⟩ :: l₂ ∧
      (removeImage "b"
        [⟨"a", "f1", "p1"⟩, ⟨"b", "f2", "p2"⟩, ⟨"c", "f3", "p3"⟩]).1 = l₁ ++ l₂ ∧
      (removeImage "b"
        [⟨"a", "f1", "p1"⟩, ⟨"b", "f2", "p2"⟩, ⟨"c", "f3", "p3"⟩]).2 = ["p2"] ∧
      (removeImage "b"
        [⟨"a", "f1", "p1"⟩, ⟨"b", "f2", "p2"⟩, ⟨"c", "f3", "p3"⟩]).1.length + 1
        = ([⟨"a", "f1", "p1"⟩, ⟨"b", "f2", "p2"⟩, ⟨"c", "f3", "p3"⟩] :
            List ImageItem).length :=
  ⟨by decide, by decide,
    remove_image_correct
      [⟨"a", "f1", "p1"⟩, ⟨"b", "f2", "p2"⟩, ⟨"c", "f3", "p3"⟩]
      ⟨"b", "f2", "p2"⟩ (by decide) (by decide)⟩

/-- C10 (corrected), counterexample: on the empty list with a non-null
dragged token distinct from the target, the two splices insert the
`undefined` produced by destructuring an empty removal, so the result is a
one-element list — not a permutation of the (empty) input. -/
theorem drag_reorder_empty_not_perm :
    ¬ List.Perm (handleDrop (some "a") "b" ([] : List ImageItem))
      (([] : List ImageItem).map some) := by
  intro hp
  have h : handleDrop (some "a") "b" ([] : List ImageItem) = [none] := by decide
  rw [h] at hp
  simp at hp

/-- C10 (amended): on every non-empty image list, any drag-reorder —
including with tokens absent from the list — yields a permutation of the
original items (none lost, none duplicated); and for every list (empty
included) the operation is the identity when nothing is dragged or the
dragged token equals the target. -/
theorem drag_reorder_permutation :
    (∀ (prev : List ImageItem) (draggedId : Option String) (targetId : String),
      prev ≠ [] →
      List.Perm (handleDrop draggedId targetId prev) (prev.map some)) ∧
    (∀ (prev : List ImageItem) (targetId : String),
      handleDrop none targetId prev = prev.map some ∧
      handleDrop (some targetId) targetId prev = prev.map some) := by
  constructor
  · intro prev draggedId targetId hne
    match draggedId with
    | none => rfl
    | some d =>
      by_cases hd : d = targetId
      · simp [handleDrop, hd]
      · obtain ⟨x, rest, h1, h2, hperm⟩ :=
          jsFindIndex_splice_one (fun img => img.id = d) prev hne
        simp only [handleDrop, if_neg hd]
        rw [h1, h2]
        simp only [List.head?_cons]
        exact (splice_insert_perm (rest.map some) _ (some x)).trans
          (hperm.map some)
  · intro prev targetId
    exact ⟨rfl, by simp [handleDrop]⟩

/-- C10 witness: dragging an absent token onto an absent target over a
one-element list still permutes (here: preserves) the items. -/
theorem drag_reorder_permutation_witness :
    ([⟨"a", "f", "p"⟩] : List ImageItem) ≠ [] ∧
    List.Perm (handleDrop (some "zz") "yy" [⟨"a", "f", "p"⟩])
      (([⟨"a", "f", "p"⟩] : List ImageItem).map some) :=
  ⟨List.cons_ne_nil _ _,
    drag_reorder_permutation.1 [⟨"a", "f", "p"⟩] (some "zz") "yy"
      (List.cons_ne_nil _ _)⟩

/-- C9: the reading time is the ceiling of `wordCount / 200`, and it is 0
exactly when `wordCount` is 0. -/
theorem reading_time_ceiling (text : List Char) :
    (computeStatistics text).readingTimeMinutes
      = ⌈((computeStatistics text).wordCount : ℚ) / 200⌉₊ ∧
    ((computeStatistics text).readingTimeMinutes = 0 ↔
      (computeStatistics text).wordCount = 0) :=
  ⟨ceil_div200_toNat ((computeStatistics text).wordCount),
   ceil_div200_eq_zero_iff ((computeStatistics text).wordCount)⟩
